import Mathlib

/-!
Verification development for the fal-cli repository.

Shallow embedding of the generation core:
  * `src/core/image-generator.js` : `generateSingleImage`, `extractImageUrls`,
    `generateBatch`, `calculateCost`
  * `src/core/model-manager.js` : `validateModelConfig`
  * the MCP server file (`src/unnamed/part_000`) : `SPENDING_LIMIT`,
    `requiresSpendingConfirmation`, `calculateGenerationCost`, and the
    spending gate of the `batch_generate` handler.

Conventions of the embedding:
  * JavaScript numbers are modelled as `ℚ` (costs) or `ℕ` (counts/indices);
    wall-clock fields (`duration`, `timestamp`) and opaque passthrough fields
    (`parameters`, `metadata`, saved files) are omitted: no claim concerns them.
  * A possibly-absent JS field is an `Option`; JS truthiness of a string is
    `s ≠ ""`, of a number is `c ≠ 0`, of an absent field is `false`.
  * The provider call (`fal.subscribe`) is an oracle argument
    `provider : ℕ → GenTask → Except String FalResult`: at absolute task
    index `i` it either throws (`.error msg`) or returns a raw response.
  * Asynchronous completion order inside one concurrency window is an oracle
    argument `sched : ℕ → List ℕ`: for the window starting at absolute index
    `i`, `sched i` lists the batch-local indices in completion order.
-/

/-- One generation task (JS object with `model`, `prompt`, optional
`imageCount`).  Mirrors the task objects consumed by `generateBatch` and
`calculateCost` in `src/core/image-generator.js`. -/
structure GenTask where
  model : String
  prompt : String
  imageCount : Option Nat := none
  deriving Repr, DecidableEq

/-- One element of a JS `images` array in a provider response: either an
object carrying optional `url` / `image_url` string fields, or a bare
string. -/
inductive ImgEntry where
  | obj (url : Option String) (image_url : Option String)
  | str (s : String)
  deriving Repr, DecidableEq

/-- JS truthiness of an optional string field: present and non-empty. -/
def strTruthy : Option String → Bool
  | none => false
  | some s => s ≠ ""

/-- A raw provider response, restricted to the shapes probed by
`extractImageUrls` (`src/core/image-generator.js:163-190`):
`result.images` (array), `result.image.url`, `result.data.images`,
`result.output.images`.  A `none` field models an absent / non-array JS
field. -/
structure FalResult where
  images : Option (List ImgEntry) := none
  image : Option (Option String) := none
  data_images : Option (List ImgEntry) := none
  output_images : Option (List ImgEntry) := none
  deriving Repr, DecidableEq

/-- The per-element extraction used on `result.images`
(`src/core/image-generator.js:168-176`): `img.url` if truthy, else
`img.image_url` if truthy, else the element itself when it is a string
(pushed even when empty). -/
def imagesEntryUrls : ImgEntry → List String
  | .obj url image_url =>
    if strTruthy url then [url.getD ""]
    else if strTruthy image_url then [image_url.getD ""]
    else []
  | .str s => [s]

/-- The per-element extraction used on `result.data.images` and
`result.output.images` (`src/core/image-generator.js:180-186`): only
`img.url` is consulted. -/
def nestedEntryUrls : ImgEntry → List String
  | .obj url _ => if strTruthy url then [url.getD ""] else []
  | .str _ => []

/-- Embeds `extractImageUrls` (`src/core/image-generator.js:163-190`): an
`if / else if` chain that dispatches on which response shape is
structurally present, in the order `images` array, `image` object,
`data.images`, `output.images`, and collects URLs from that single
shape. -/
def extractImageUrls (result : FalResult) : List String :=
  match result.images with
  | some imgs => imgs.flatMap imagesEntryUrls
  | none =>
    match result.image with
    | some url =>
      if strTruthy url then [url.getD ""]
      else urlsFromNested result
    | none => urlsFromNested result
where
  /-- The tail of the chain: `data.images` then `output.images`. -/
  urlsFromNested (result : FalResult) : List String :=
    match result.data_images with
    | some imgs => imgs.flatMap nestedEntryUrls
    | none =>
      match result.output_images with
      | some imgs => imgs.flatMap nestedEntryUrls
      | none => []

/-- Modelled from the spec (§4.4): the normalization the spec describes —
"attempt each known shape in a fixed priority order and use the first that
yields at least one non-empty URL".  Each shape's candidate list is computed
with the code's per-shape rules; the first shape whose candidates contain a
non-empty URL wins. -/
def extractImageUrlsSpecOrder (result : FalResult) : List String :=
  let cands : List (List String) :=
    [ (result.images.getD []).flatMap imagesEntryUrls,
      match result.image with
      | some url => if strTruthy url then [url.getD ""] else []
      | none => [],
      (result.data_images.getD []).flatMap nestedEntryUrls,
      (result.output_images.getD []).flatMap nestedEntryUrls ]
  match cands.find? (fun l => l.any (fun s => s ≠ "")) with
  | some l => l
  | none => []

/-- The outcome object built by `generateSingleImage`
(`src/core/image-generator.js:98-137`): on success, `success: true` with the
extracted image URLs; on any caught error, `success: false` with the error
message.  Timing, metadata and saved-file fields are omitted. -/
structure GenResult where
  success : Bool
  model : String
  prompt : String
  images : List String := []
  error : Option String := none
  deriving Repr, DecidableEq

/-- Embeds `generateSingleImage` (`src/core/image-generator.js:60-137`) for one
task, given the provider oracle for this call: a thrown provider error is
caught and returned as a failure object; a response with no extractable
image URLs becomes the failure `"No images generated"`; otherwise a success
object carrying the URLs. -/
def generateSingleImage (provider : GenTask → Except String FalResult)
    (t : GenTask) : GenResult :=
  match provider t with
  | .error msg =>
    { success := false, model := t.model, prompt := t.prompt, error := some msg }
  | .ok result =>
    let images := extractImageUrls result
    if images.isEmpty then
      { success := false, model := t.model, prompt := t.prompt,
        error := some "No images generated" }
    else
      { success := true, model := t.model, prompt := t.prompt, images := images }

/-- A loaded model descriptor, restricted to the fields consumed by
`calculateCost` (`src/core/image-generator.js:321-350`) and
`calculateGenerationCost` (MCP server): `id`, `name`, `costPerImage`.
`costPerImage` is `Option ℚ`: `none` models an absent field. -/
structure CatalogModel where
  id : String
  name : String
  costPerImage : Option ℚ := none
  deriving Repr, DecidableEq

/-- Embeds `SPENDING_LIMIT` (MCP server): maximum allowed spending in USD without
explicit confirmation. -/
def SPENDING_LIMIT : ℚ := 5

/-- Embeds `requiresSpendingConfirmation(estimatedCost)` (MCP server): true iff the
estimate strictly exceeds `SPENDING_LIMIT`. -/
def requiresSpendingConfirmation (estimatedCost : ℚ) : Bool :=
  SPENDING_LIMIT < estimatedCost

/-- Decision of the spending gate: proceed, or raise the structured
`SPENDING_CONFIRMATION_REQUIRED` error carrying the estimate and the
limit. -/
inductive SpendDecision where
  | allow
  | requireConfirmation (estimated_cost spending_limit : ℚ)
  deriving Repr, DecidableEq

/-- The spending gate of the `batch_generate` handler (MCP server): it
throws the `SPENDING_CONFIRMATION_REQUIRED` error exactly when
`requiresSpendingConfirmation(totalEstimatedCost) && !confirm_spending`,
and otherwise proceeds with the batch. -/
def checkSpending (totalEstimatedCost : ℚ) (confirm_spending : Bool) :
    SpendDecision :=
  if requiresSpendingConfirmation totalEstimatedCost && !confirm_spending then
    .requireConfirmation totalEstimatedCost SPENDING_LIMIT
  else
    .allow

/-- Embeds `calculateGenerationCost(model, numImages)` (MCP server): looks the
model up in the loaded catalog (passed here explicitly); if the model is
missing, or its `costPerImage` is absent or `0` (falsy), returns the
conservative `$0.05` per image; otherwise `costPerImage * numImages`. -/
def calculateGenerationCost (models : List CatalogModel) (model : String)
    (numImages : Nat) : ℚ :=
  match models.find? (fun m => m.id = model) with
  | none => 5 / 100 * numImages
  | some modelConfig =>
    match modelConfig.costPerImage with
    | none => 5 / 100 * numImages
    | some c => if c = 0 then 5 / 100 * numImages else c * numImages

/-- One value of the `breakdown` map built by `calculateCost`
(`src/core/image-generator.js:331-341`). -/
structure CostEntry where
  modelName : String
  imageCount : Nat
  costPerImage : ℚ
  totalCost : ℚ
  deriving Repr, DecidableEq

/-- The object returned by `calculateCost`
(`src/core/image-generator.js:345-349`); the JS `breakdown` object is an
insertion-ordered association list keyed by model id. -/
structure CostBreakdown where
  totalCost : ℚ
  breakdown : List (String × CostEntry)
  currency : String
  deriving Repr, DecidableEq

/-- Embeds `task.imageCount || 1` (`src/core/image-generator.js:328`): an absent or
zero (falsy) count defaults to 1. -/
def taskImages (t : GenTask) : Nat :=
  match t.imageCount with
  | none => 1
  | some n => if n = 0 then 1 else n

/-- Embeds `models.find(m => m.id === task.model)` followed by the
`model && model.costPerImage` truthiness guard
(`src/core/image-generator.js:326-327`): `some c` iff the model resolves
and has a nonzero `costPerImage`. -/
def resolvedCost (models : List CatalogModel) (modelId : String) : Option ℚ :=
  match models.find? (fun m => m.id = modelId) with
  | none => none
  | some m =>
    match m.costPerImage with
    | none => none
    | some c => if c = 0 then none else some c

/-- Gives `model.name` of the first catalog entry with the given id (used when a
new breakdown entry is created). -/
def resolvedName (models : List CatalogModel) (modelId : String) : String :=
  match models.find? (fun m => m.id = modelId) with
  | none => ""
  | some m => m.name

/-- Lookup in the JS `breakdown` object. -/
def bdLookup (k : String) : List (String × CostEntry) → Option CostEntry
  | [] => none
  | (k', e) :: rest => if k' = k then some e else bdLookup k rest

/-- In-place update of one key of the JS `breakdown` object. -/
def bdUpdate (k : String) (v : CostEntry) :
    List (String × CostEntry) → List (String × CostEntry)
  | [] => []
  | (k', e) :: rest =>
    if k' = k then (k', v) :: rest else (k', e) :: bdUpdate k v rest

/-- The body of the `tasks.forEach` loop of `calculateCost`
(`src/core/image-generator.js:325-343`), acting on the accumulator
`(totalCost, breakdown)`: a task whose model does not resolve to a truthy
`costPerImage` is skipped; otherwise its cost is added to the total and to
its model's breakdown entry (created on first sight). -/
def calculateCostStep (models : List CatalogModel)
    (acc : ℚ × List (String × CostEntry)) (task : GenTask) :
    ℚ × List (String × CostEntry) :=
  match resolvedCost models task.model with
  | none => acc
  | some c =>
    let n := taskImages task
    let cost := c * n
    let bd :=
      match bdLookup task.model acc.2 with
      | none =>
        acc.2 ++ [(task.model,
          { modelName := resolvedName models task.model,
            imageCount := n, costPerImage := c, totalCost := cost })]
      | some e =>
        bdUpdate task.model
          { e with imageCount := e.imageCount + n, totalCost := e.totalCost + cost }
          acc.2
    (acc.1 + cost, bd)

/-- Embeds `calculateCost(tasks, models)` (`src/core/image-generator.js:321-350`). -/
def calculateCost (tasks : List GenTask) (models : List CatalogModel) :
    CostBreakdown :=
  let acc := tasks.foldl (calculateCostStep models) (0, [])
  { totalCost := acc.1, breakdown := acc.2, currency := "USD" }

/-- JS truthiness of an optional numeric field: present and nonzero. -/
def numTruthy : Option ℚ → Bool
  | none => false
  | some c => c ≠ 0

/-- One parameter definition inside a model configuration, as consulted by
`validateModelConfig` (`src/core/model-manager.js:226-236`). -/
structure ParamSpec where
  type : Option String := none
  min : Option ℚ := none
  max : Option ℚ := none
  deriving Repr, DecidableEq

/-- A model configuration as consulted by `validateModelConfig`
(`src/core/model-manager.js:198-244`).  Absent JS fields are `none`; the
`parameters` object is an insertion-ordered association list.  `costPerImage`
is already numeric in this embedding, so the JS `typeof` check
(`model-manager.js:216-218`) can never fire and is not modelled. -/
structure ModelConfig where
  id : Option String := none
  name : Option String := none
  type : Option String := none
  costPerImage : Option ℚ := none
  parameters : Option (List (String × ParamSpec)) := none
  deriving Repr, DecidableEq

/-- The result object of `validateModelConfig`
(`src/core/model-manager.js:239-243`). -/
structure ValidationResult where
  valid : Bool
  errors : List String
  warnings : List String
  deriving Repr, DecidableEq

/-- The `required.forEach` loop (`src/core/model-manager.js:203-208`): a
falsy field value (absent, empty string, or — for `costPerImage` — zero)
produces a "Missing required field" error, in the fixed order
`id`, `name`, `type`, `costPerImage`. -/
def missingFieldErrors (m : ModelConfig) : List String :=
  (if strTruthy m.id then [] else ["Missing required field: id"]) ++
  (if strTruthy m.name then [] else ["Missing required field: name"]) ++
  (if strTruthy m.type then [] else ["Missing required field: type"]) ++
  (if numTruthy m.costPerImage then [] else ["Missing required field: costPerImage"])

/-- The per-parameter checks (`src/core/model-manager.js:226-236`), returning
(errors, warnings) for one named parameter: a missing `type` is a warning;
for a `number` parameter with both `min` and `max` present, `min >= max` is
an error. -/
def paramChecks (nm : String) (p : ParamSpec) : List String × List String :=
  let warn := if strTruthy p.type then [] else
    ["Parameter " ++ nm ++ " is missing type definition"]
  let err :=
    match p.type, p.min, p.max with
    | some "number", some mn, some mx =>
      if mx ≤ mn then ["Parameter " ++ nm ++ ": min value must be less than max value"]
      else []
    | _, _, _ => []
  (err, warn)

/-- Embeds `validateModelConfig(modelConfig)` (`src/core/model-manager.js:198-244`):
required-field falsy checks, the `id` format warning, the negative-cost
check (guarded by the truthiness of `costPerImage`), and the per-parameter
checks; `valid` iff no error accumulated. -/
def validateModelConfig (m : ModelConfig) : ValidationResult :=
  let idWarnings :=
    match m.id with
    | some s => if s ≠ "" ∧ ¬ s.contains '/' then
        ["Model ID should follow \"provider/model-name\" format"] else []
    | none => []
  let costErrors :=
    match m.costPerImage with
    | some c => if c ≠ 0 ∧ c < 0 then ["costPerImage cannot be negative"] else []
    | none => []
  let ps := m.parameters.getD []
  let paramErrors := ps.flatMap fun kv => (paramChecks kv.1 kv.2).1
  let paramWarnings := ps.flatMap fun kv => (paramChecks kv.1 kv.2).2
  let errors := missingFieldErrors m ++ costErrors ++ paramErrors
  { valid := errors.isEmpty
    errors := errors
    warnings := idWarnings ++ paramWarnings }

/-- Helper `mapFrom f i l`: maps `f` over `l`, feeding each element its absolute
index starting at `i` (the shape of `batch.map((task, batchIndex) => ...)`
with window offset `i`). -/
def mapFrom (f : Nat → α → β) : Nat → List α → List β
  | _, [] => []
  | i, x :: xs => f i x :: mapFrom f (i + 1) xs

/-- The argument object of one `onProgress` invocation
(`src/core/image-generator.js:296-303`): note the JS code passes
`completed: i + batchIndex + 1`, a value computed from the task's
*position*, not from how many tasks have actually completed. -/
structure ProgressEvent where
  completed : Nat
  total : Nat
  currentTask : GenTask
  result : GenResult
  deriving Repr, DecidableEq

/-- Per-task outcomes at absolute indices starting at `i`: the `Promise.all`
value of one window, and — applied to the whole task list — the final
`results` array of `generateBatch`. -/
def taskOutcomes (provider : Nat → GenTask → Except String FalResult) :
    Nat → List GenTask → List GenResult :=
  mapFrom fun j t => generateSingleImage (provider j) t

/-- The `onProgress` invocations of the window starting at absolute index
`i`, in completion order `sched i` (a list of batch-local indices): each
carries `completed = i + batchIndex + 1`, the total task count, the task
and its result (`src/core/image-generator.js:296-303`). -/
def windowEvents (sched : Nat → List Nat) (total i : Nat)
    (window : List GenTask) (wres : List GenResult) : List ProgressEvent :=
  (sched i).map fun bi =>
    { completed := i + bi + 1
      total := total
      currentTask := window.getD bi { model := "", prompt := "" }
      result := wres.getD bi { success := false, model := "", prompt := "" } }

/-- The `for (let i = 0; i < tasks.length; i += batchSize)` loop of
`generateBatch` (`src/core/image-generator.js:279-310`), transcribed with
the remaining task list `rem = tasks.drop i` alongside the loop counter
`i`, and explicit fuel: `none` means the loop did not finish within `fuel`
iterations.  Each iteration takes the window `rem.take b`, produces its
results and its `onProgress` events, then advances by `b`. -/
def generateBatchFuel (provider : Nat → GenTask → Except String FalResult)
    (sched : Nat → List Nat) (total b : Nat) :
    Nat → Nat → List GenTask → Option (List GenResult × List ProgressEvent)
  | 0, _, _ => none
  | _ + 1, _, [] => some ([], [])
  | fuel + 1, i, t :: ts =>
    let window := (t :: ts).take b
    let wres := taskOutcomes provider i window
    let wev := windowEvents sched total i window wres
    match generateBatchFuel provider sched total b fuel (i + b) ((t :: ts).drop b) with
    | none => none
    | some (rs, es) => some (wres ++ rs, wev ++ es)

/-- Embeds `generateBatch(tasks, apiKey, options)`
(`src/core/image-generator.js:268-313`): the windowed loop run from `i = 0`
with fuel `tasks.length + 1`, which is enough for every terminating run
(each productive iteration consumes at least one task when
`batchSize ≥ 1`).  Returns the final `results` array together with the
full sequence of `onProgress` invocations. -/
def generateBatch (provider : Nat → GenTask → Except String FalResult)
    (sched : Nat → List Nat) (b : Nat) (tasks : List GenTask) :
    Option (List GenResult × List ProgressEvent) :=
  generateBatchFuel provider sched tasks.length b (tasks.length + 1) 0 tasks

/-- The consecutive windows `tasks.slice(i, i + batchSize)` visited by the
loop of `generateBatch`, for `batchSize ≥ 1`. -/
def chunks (b : Nat) : List α → List (List α)
  | [] => []
  | x :: xs => (x :: xs.take (b - 1)) :: chunks b (xs.drop (b - 1))
termination_by l => l.length
decreasing_by simp; omega

/-- Sequential execution of a list of windows starting at absolute index
`i`: each window is dispatched wholly (its tasks evaluated together and its
progress events emitted) before the next window starts. -/
def runWindows (provider : Nat → GenTask → Except String FalResult)
    (sched : Nat → List Nat) (total : Nat) :
    Nat → List (List GenTask) → List GenResult × List ProgressEvent
  | _, [] => ([], [])
  | i, w :: ws =>
    let wres := taskOutcomes provider i w
    let wev := windowEvents sched total i w wres
    let rest := runWindows provider sched total (i + w.length) ws
    (wres ++ rest.1, wev ++ rest.2)

/-- A completion schedule is valid for bound `b` over `n` tasks when, for
every window start `i`, it is a permutation of the batch-local indices of
that window (`min b (n - i)` of them). -/
def ValidSched (b n : Nat) (sched : Nat → List Nat) : Prop :=
  ∀ i, List.Perm (sched i) (List.range (min b (n - i)))

/-- The invariant each breakdown entry satisfies after `calculateCost` has
processed the prefix `processed` of the task list: its unit cost is the
resolved (truthy) catalog cost of its key, its subtotal is unit cost times
its image count, and its image count is the sum of the (defaulted) image
counts of the processed tasks for that model. -/
def entryProps (models : List CatalogModel) (processed : List GenTask)
    (kv : String × CostEntry) : Prop :=
  resolvedCost models kv.1 = some kv.2.costPerImage ∧
  kv.2.totalCost = kv.2.costPerImage * (kv.2.imageCount : ℚ) ∧
  kv.2.imageCount = ((processed.filter (fun t => t.model = kv.1)).map taskImages).sum

/-- A descriptor rejected by `validateModelConfig` although its only flaw
under the spec's invariant is `costPerImage = 0`. -/
def zeroCostConfig : ModelConfig :=
  { id := some "fal-ai/test-model", name := some "Test Model",
    type := some "image", costPerImage := some 0 }

/-- A descriptor with all required fields truthy, a positive cost, and one
well-formed numeric parameter. -/
def wellFormedConfig : ModelConfig :=
  { id := some "fal-ai/test-model", name := some "Test Model",
    type := some "image", costPerImage := some (3 / 100),
    parameters := some [("width",
      { type := some "number", min := some 256, max := some 1024 })] }

/-!  Shared concrete fixtures used by witnesses and counterexamples. -/

/-- A concrete generation task. -/
def sampleTaskA : GenTask := { model := "fal-ai/flux-pro", prompt := "a sunset" }

/-- A second concrete generation task. -/
def sampleTaskB : GenTask := { model := "fal-ai/flux-dev", prompt := "a cat" }

/-- A provider response whose `images` array is present but yields no URL,
while a URL sits under the later `data.images` shape. -/
def shadowedResponse : FalResult :=
  { images := some [.obj none none], data_images := some [.obj (some "u") none] }

/-- A provider response with one good URL under the `images` shape. -/
def okResponse : FalResult := { images := some [.obj (some "okurl") none] }

/-- A provider oracle that throws on the task at absolute index 0 and
answers `okResponse` elsewhere. -/
def failAtZeroProvider : Nat → GenTask → Except String FalResult := fun i _ =>
  if i = 0 then .error "Rate limit exceeded" else .ok okResponse

/-- A provider oracle that always answers `shadowedResponse`. -/
def shadowedProvider : GenTask → Except String FalResult := fun _ =>
  .ok shadowedResponse

/-- The in-dispatch-order completion schedule for two tasks under bound 1. -/
def inOrderSched : Nat → List Nat := fun i => List.range (min 1 (2 - i))

/-- The reversed completion schedule for two tasks under bound 2: the later
task of the window finishes first. -/
def reversedSched : Nat → List Nat := fun i => (List.range (min 2 (2 - i))).reverse

/-!  Helper lemmas about `mapFrom` / `taskOutcomes`. -/

theorem mapFrom_nil (f : Nat → α → β) (i : Nat) : mapFrom f i [] = [] := rfl

theorem mapFrom_cons (f : Nat → α → β) (i : Nat) (x : α) (xs : List α) :
    mapFrom f i (x :: xs) = f i x :: mapFrom f (i + 1) xs := rfl

theorem mapFrom_length (f : Nat → α → β) :
    ∀ (i : Nat) (l : List α), (mapFrom f i l).length = l.length := by
  intro i l
  induction l generalizing i with
  | nil => rfl
  | cons x xs ih => simp [mapFrom_cons, ih]

theorem mapFrom_append (f : Nat → α → β) :
    ∀ (l l' : List α) (i : Nat),
      mapFrom f i (l ++ l') = mapFrom f i l ++ mapFrom f (i + l.length) l' := by
  intro l
  induction l with
  | nil => intro l' i; simp [mapFrom_nil]
  | cons x xs ih =>
    intro l' i
    simp only [List.cons_append, mapFrom_cons, ih, List.length_cons]
    have h : i + 1 + xs.length = i + (xs.length + 1) := by omega
    rw [h]

theorem mapFrom_getElem? (f : Nat → α → β) :
    ∀ (l : List α) (i j : Nat), (mapFrom f i l)[j]? = l[j]?.map (f (i + j)) := by
  intro l
  induction l with
  | nil => intro i j; simp [mapFrom_nil]
  | cons x xs ih =>
    intro i j
    cases j with
    | zero => simp [mapFrom_cons]
    | succ j' =>
      simp only [mapFrom_cons, List.getElem?_cons_succ, ih]
      have h : i + 1 + j' = i + (j' + 1) := by omega
      rw [h]

theorem taskOutcomes_length (provider : Nat → GenTask → Except String FalResult)
    (i : Nat) (l : List GenTask) : (taskOutcomes provider i l).length = l.length :=
  mapFrom_length _ i l

theorem taskOutcomes_getElem? (provider : Nat → GenTask → Except String FalResult)
    (l : List GenTask) (i j : Nat) :
    (taskOutcomes provider i l)[j]? =
      l[j]?.map (fun t => generateSingleImage (provider (i + j)) t) :=
  mapFrom_getElem? _ l i j

/-- Splitting `taskOutcomes` at a window boundary: outcomes of the whole
remainder are the outcomes of the first window followed by the outcomes of
the rest, started at the advanced loop counter. -/
theorem taskOutcomes_window (provider : Nat → GenTask → Except String FalResult)
    (b i : Nat) (l : List GenTask) :
    taskOutcomes provider i l =
      taskOutcomes provider i (l.take b) ++ taskOutcomes provider (i + b) (l.drop b) := by
  by_cases hbl : b ≤ l.length
  · have hsplit := List.take_append_drop b l
    calc taskOutcomes provider i l
        = taskOutcomes provider i (l.take b ++ l.drop b) := by rw [hsplit]
      _ = taskOutcomes provider i (l.take b) ++
            taskOutcomes provider (i + (l.take b).length) (l.drop b) :=
          mapFrom_append _ _ _ _
      _ = taskOutcomes provider i (l.take b) ++
            taskOutcomes provider (i + b) (l.drop b) := by
          have h : i + (l.take b).length = i + b := by
            rw [List.length_take]
            omega
          rw [h]
  · have htake : l.take b = l := List.take_of_length_le (by omega)
    have hdrop : l.drop b = [] := List.drop_eq_nil_of_le (by omega)
    simp [htake, hdrop, taskOutcomes, mapFrom_nil]

/-- Shifting `List.range n` to start at `i + 1`. -/
theorem range_map_shift (i n : Nat) :
    (List.range n).map (fun bi => i + bi + 1) = List.range' (i + 1) n := by
  rw [List.range'_eq_map_range]
  apply List.map_congr_left
  intro a _
  omega

/-- Concatenation of adjacent `List.range'` segments. -/
theorem range'_glue (s m n : Nat) :
    List.range' s m ++ List.range' (s + m) n = List.range' s (m + n) := by
  have h := List.range'_append s m n 1
  simp only [one_mul] at h
  rw [h, Nat.add_comm n m]

/-- The loop on the empty remainder returns immediately whenever at least
one unit of fuel is left. -/
theorem generateBatchFuel_nil (provider : Nat → GenTask → Except String FalResult)
    (sched : Nat → List Nat) (total b fuel i : Nat) (hf : 1 ≤ fuel) :
    generateBatchFuel provider sched total b fuel i [] = some ([], []) := by
  match fuel, hf with
  | fuel + 1, _ => rfl

/-- The `results` array of a terminating run is exactly the per-task
outcomes of the remainder, in input order: `generateBatchFuel` returns
`taskOutcomes` at the loop counter, for any completion schedule. -/
theorem generateBatchFuel_results (provider : Nat → GenTask → Except String FalResult)
    (sched : Nat → List Nat) (total b : Nat) (hb : 1 ≤ b) :
    ∀ (fuel i : Nat) (rem : List GenTask), rem.length < fuel →
      ∃ es, generateBatchFuel provider sched total b fuel i rem =
        some (taskOutcomes provider i rem, es) := by
  intro fuel
  induction fuel with
  | zero => intro i rem h; omega
  | succ fuel ih =>
    intro i rem h
    match rem with
    | [] => exact ⟨[], rfl⟩
    | t :: ts =>
      have hlen : ((t :: ts).drop b).length < fuel := by
        rw [List.length_drop]
        simp only [List.length_cons] at h ⊢
        omega
      obtain ⟨es', heq⟩ := ih (i + b) ((t :: ts).drop b) hlen
      refine ⟨windowEvents sched total i ((t :: ts).take b)
          (taskOutcomes provider i ((t :: ts).take b)) ++ es', ?_⟩
      simp only [generateBatchFuel, heq]
      rw [← taskOutcomes_window]

/-- The `chunks` windows partition: concatenating them gives back the list. -/
theorem chunks_flatten (b : Nat) : (l : List α) → (chunks b l).flatten = l
  | [] => by rw [chunks]; rfl
  | x :: xs => by
    rw [chunks, List.flatten_cons, chunks_flatten b (xs.drop (b - 1))]
    simp [List.take_append_drop]
termination_by l => l.length
decreasing_by simp; omega

/-- Every window produced by `chunks` is nonempty and holds at most `b`
tasks, for `b ≥ 1`. -/
theorem chunks_bounded (b : Nat) (hb : 1 ≤ b) :
    (l : List α) → ∀ w ∈ chunks b l, w.length ≤ b ∧ w ≠ []
  | [] => by rw [chunks]; intro w hw; cases hw
  | x :: xs => by
    rw [chunks]
    intro w hw
    rcases List.mem_cons.mp hw with h | h
    · subst h
      constructor
      · simp only [List.length_cons, List.length_take]
        omega
      · simp
    · exact chunks_bounded b hb (xs.drop (b - 1)) w h
termination_by l => l.length
decreasing_by simp; omega

/-- A terminating run of the loop is exactly the sequential execution of
the consecutive windows `chunks b rem`: each window is dispatched as a
whole (its task outcomes and its progress events computed together) and the
next window starts only after it. -/
theorem generateBatchFuel_windows (provider : Nat → GenTask → Except String FalResult)
    (sched : Nat → List Nat) (total b : Nat) (hb : 1 ≤ b) :
    ∀ (fuel i : Nat) (rem : List GenTask), rem.length < fuel →
      generateBatchFuel provider sched total b fuel i rem =
        some (runWindows provider sched total i (chunks b rem)) := by
  obtain ⟨k, rfl⟩ : ∃ k, b = k + 1 := ⟨b - 1, by omega⟩
  intro fuel
  induction fuel with
  | zero => intro i rem h; omega
  | succ fuel ih =>
    intro i rem h
    match rem with
    | [] => rw [chunks]; rfl
    | t :: ts =>
      have hlen : ((t :: ts).drop (k + 1)).length < fuel := by
        rw [List.length_drop]
        simp only [List.length_cons] at h ⊢
        omega
      have heq := ih (i + (k + 1)) ((t :: ts).drop (k + 1)) hlen
      simp only [generateBatchFuel, heq, chunks, runWindows]
      simp only [List.drop_succ_cons, List.take_succ_cons, Nat.add_sub_cancel]
      by_cases hk : k ≤ ts.length
      · have hw : (t :: ts.take k).length = k + 1 := by
          simp only [List.length_cons, List.length_take]
          omega
        rw [hw]
      · have hd : ts.drop k = [] := List.drop_eq_nil_of_le (by omega)
        rw [hd, chunks]
        rfl

/-- The progress events of a terminating run: under a valid completion
schedule the `completed` values emitted are, as a multiset, exactly the
positions `i+1 … i+rem.length` (one event per task); and for `b = 1` they
are emitted exactly in increasing order. -/
theorem generateBatchFuel_events (provider : Nat → GenTask → Except String FalResult)
    (sched : Nat → List Nat) (total b : Nat) (hb : 1 ≤ b) :
    ∀ (fuel i : Nat) (rem : List GenTask), rem.length < fuel →
      (∀ j, List.Perm (sched j) (List.range (min b (i + rem.length - j)))) →
      ∃ rs es, generateBatchFuel provider sched total b fuel i rem = some (rs, es) ∧
        List.Perm (es.map (fun e => e.completed)) (List.range' (i + 1) rem.length) ∧
        (b = 1 → es.map (fun e => e.completed) = List.range' (i + 1) rem.length) := by
  intro fuel
  induction fuel with
  | zero => intro i rem h _; omega
  | succ fuel ih =>
    intro i rem h hs
    match rem with
    | [] => exact ⟨[], [], rfl, by simp, fun _ => by simp⟩
    | t :: ts =>
      have hwevmap : (windowEvents sched total i ((t :: ts).take b)
            (taskOutcomes provider i ((t :: ts).take b))).map (fun e => e.completed)
          = (sched i).map (fun bi => i + bi + 1) := by
        simp [windowEvents, List.map_map, Function.comp]
      have hsched_i : List.Perm (sched i) (List.range (min b (t :: ts).length)) := by
        have h0 := hs i
        have harith : i + (t :: ts).length - i = (t :: ts).length := by omega
        rwa [harith] at h0
      have hwlen : ((t :: ts).take b).length = min b (t :: ts).length := by
        rw [List.length_take]
      have hperm_w : List.Perm ((windowEvents sched total i ((t :: ts).take b)
            (taskOutcomes provider i ((t :: ts).take b))).map (fun e => e.completed))
          (List.range' (i + 1) (min b (t :: ts).length)) := by
        rw [hwevmap, ← range_map_shift i (min b (t :: ts).length)]
        exact hsched_i.map _
      by_cases hbl : b ≤ (t :: ts).length
      · have hlen : ((t :: ts).drop b).length < fuel := by
          rw [List.length_drop]
          simp only [List.length_cons] at h ⊢
          omega
        have hs' : ∀ j, List.Perm (sched j)
            (List.range (min b (i + b + ((t :: ts).drop b).length - j))) := by
          intro j
          have harith : i + b + ((t :: ts).drop b).length - j
              = i + (t :: ts).length - j := by
            rw [List.length_drop]
            omega
          rw [harith]
          exact hs j
        obtain ⟨rs', es', heq, hperm', hone'⟩ := ih (i + b) ((t :: ts).drop b) hlen hs'
        refine ⟨taskOutcomes provider i ((t :: ts).take b) ++ rs',
          windowEvents sched total i ((t :: ts).take b)
            (taskOutcomes provider i ((t :: ts).take b)) ++ es', ?_, ?_, ?_⟩
        · simp only [generateBatchFuel, heq]
        · rw [List.map_append]
          have hminb : min b (t :: ts).length = b := by omega
          have h1 := hperm_w
          rw [hminb] at h1
          have h2 := hperm'
          have hidx : i + b + 1 = i + 1 + b := by omega
          rw [hidx] at h2
          have happ := h1.append h2
          have hglue : List.range' (i + 1) b ++
              List.range' (i + 1 + b) ((t :: ts).drop b).length
              = List.range' (i + 1) (t :: ts).length := by
            rw [range'_glue]
            congr 1
            rw [List.length_drop]
            omega
          rwa [hglue] at happ
        · intro hb1
          subst hb1
          have hsi : sched i = [0] := by
            have hmin1 : min 1 (t :: ts).length = 1 := by
              simp only [List.length_cons]
              omega
            have hr1 : List.range 1 = [0] := rfl
            rw [hmin1, hr1] at hsched_i
            exact List.perm_singleton.mp hsched_i
          rw [List.map_append, hwevmap, hsi]
          have hmap1 : [0].map (fun bi => i + bi + 1) = [i + 1] := by simp
          rw [hmap1, hone' rfl]
          have hlen1 : ((t :: ts).drop 1).length = ts.length := by simp
          have harr : (t :: ts).length = ts.length + 1 := by simp
          rw [harr, List.range'_succ]
          simp [List.length_drop]
      · have hd : (t :: ts).drop b = [] := List.drop_eq_nil_of_le (by omega)
        have hf1 : 1 ≤ fuel := by
          simp only [List.length_cons] at h
          omega
        have hnil := generateBatchFuel_nil provider sched total b fuel (i + b) hf1
        refine ⟨taskOutcomes provider i ((t :: ts).take b),
          windowEvents sched total i ((t :: ts).take b)
            (taskOutcomes provider i ((t :: ts).take b)), ?_, ?_, ?_⟩
        · simp only [generateBatchFuel, hd, hnil, List.append_nil]
        · have hmin : min b (t :: ts).length = (t :: ts).length := by omega
          rw [hmin] at hperm_w
          exact hperm_w
        · intro hb1
          exfalso
          simp only [List.length_cons] at hbl
          omega

/-!  Lemmas about the `breakdown` association object of `calculateCost`. -/

theorem bdLookup_eq_none_iff (k : String) :
    ∀ l : List (String × CostEntry), bdLookup k l = none ↔ ∀ kv ∈ l, kv.1 ≠ k := by
  intro l
  induction l with
  | nil => simp [bdLookup]
  | cons kv rest ih =>
    by_cases hk : kv.1 = k
    · constructor
      · intro h
        rw [bdLookup, if_pos hk] at h
        exact absurd h (by simp)
      · intro hall
        exact absurd hk (hall kv (List.mem_cons_self _ _))
    · constructor
      · intro h kv' hkv'
        rcases List.mem_cons.mp hkv' with heq | hmem
        · subst heq
          exact hk
        · rw [bdLookup, if_neg hk] at h
          exact ih.mp h kv' hmem
      · intro hall
        rw [bdLookup, if_neg hk]
        exact ih.mpr (fun kv' h => hall kv' (List.mem_cons_of_mem _ h))

theorem bdLookup_mem (k : String) (e : CostEntry) :
    ∀ l : List (String × CostEntry), bdLookup k l = some e → (k, e) ∈ l := by
  intro l
  induction l with
  | nil => intro h; simp [bdLookup] at h
  | cons kv rest ih =>
    intro h
    by_cases hk : kv.1 = k
    · rw [bdLookup, if_pos hk] at h
      have h2 : kv.2 = e := by simpa using h
      have hkv : kv = (k, e) := by
        obtain ⟨k', e'⟩ := kv
        simp only at hk h2
        rw [hk, h2]
      rw [← hkv]
      exact List.mem_cons_self _ _
    · rw [bdLookup, if_neg hk] at h
      exact List.mem_cons_of_mem _ (ih h)

theorem bdLookup_append (k : String) :
    ∀ l l' : List (String × CostEntry),
      bdLookup k (l ++ l') =
        (match bdLookup k l with
         | some e => some e
         | none => bdLookup k l') := by
  intro l l'
  induction l with
  | nil => simp [bdLookup]
  | cons kv rest ih =>
    by_cases hk : kv.1 = k
    · simp [bdLookup, hk]
    · simp [bdLookup, hk, ih]

theorem bdUpdate_keys (k : String) (v : CostEntry) :
    ∀ l : List (String × CostEntry),
      (bdUpdate k v l).map Prod.fst = l.map Prod.fst := by
  intro l
  induction l with
  | nil => rfl
  | cons kv rest ih =>
    by_cases hk : kv.1 = k
    · simp [bdUpdate, hk]
    · simp [bdUpdate, hk, ih]

theorem bdUpdate_sum (g : CostEntry → ℚ) (k : String) (v e : CostEntry) :
    ∀ l : List (String × CostEntry), bdLookup k l = some e →
      ((bdUpdate k v l).map (fun kv => g kv.2)).sum
        = (l.map (fun kv => g kv.2)).sum + g v - g e := by
  intro l
  induction l with
  | nil => intro h; simp [bdLookup] at h
  | cons kv rest ih =>
    intro h
    by_cases hk : kv.1 = k
    · simp only [bdLookup, if_pos hk, Option.some.injEq] at h
      subst h
      simp only [bdUpdate, if_pos hk, List.map_cons, List.sum_cons]
      ring
    · simp only [bdLookup, if_neg hk] at h
      simp only [bdUpdate, if_neg hk, List.map_cons, List.sum_cons, ih h]
      ring

theorem bdUpdate_mem_nodup (k : String) (v : CostEntry) :
    ∀ l : List (String × CostEntry), (l.map Prod.fst).Nodup →
      bdLookup k l ≠ none →
      ∀ kv' ∈ bdUpdate k v l, kv' = (k, v) ∨ (kv' ∈ l ∧ kv'.1 ≠ k) := by
  intro l
  induction l with
  | nil => intro _ hlk; simp [bdLookup] at hlk
  | cons kv rest ih =>
    intro hnd hlk kv' hkv'
    have hnd' : (rest.map Prod.fst).Nodup := (List.nodup_cons.mp hnd).2
    have hhead : kv.1 ∉ rest.map Prod.fst := (List.nodup_cons.mp hnd).1
    by_cases hk : kv.1 = k
    · simp only [bdUpdate, if_pos hk] at hkv'
      rcases List.mem_cons.mp hkv' with h | h
      · left
        rw [h, hk]
      · right
        refine ⟨List.mem_cons_of_mem _ h, ?_⟩
        intro hc
        apply hhead
        rw [hk, ← hc]
        exact List.mem_map_of_mem Prod.fst h
    · simp only [bdUpdate, if_neg hk] at hkv'
      rcases List.mem_cons.mp hkv' with h | h
      · right
        rw [h]
        exact ⟨List.mem_cons_self _ _, hk⟩
      · simp only [bdLookup, if_neg hk] at hlk
        rcases ih hnd' hlk kv' h with hl | ⟨hmem, hne⟩
        · exact Or.inl hl
        · exact Or.inr ⟨List.mem_cons_of_mem _ hmem, hne⟩

theorem bdLookup_ne_none_iff (k : String) (l : List (String × CostEntry)) :
    bdLookup k l ≠ none ↔ k ∈ l.map Prod.fst := by
  rw [Ne, bdLookup_eq_none_iff]
  push_neg
  constructor
  · rintro ⟨kv, hkv, hk⟩
    rw [← hk]
    exact List.mem_map_of_mem Prod.fst hkv
  · intro hk
    obtain ⟨kv, hkv, hfst⟩ := List.mem_map.mp hk
    exact ⟨kv, hkv, hfst⟩

/-- Filtering over `processed ++ [t]` for a key different from `t.model`
ignores `t`. -/
theorem filter_snoc_ne (processed : List GenTask) (t : GenTask) (k : String)
    (hne : t.model ≠ k) :
    (processed ++ [t]).filter (fun t' => t'.model = k)
      = processed.filter (fun t' => t'.model = k) := by
  rw [List.filter_append]
  simp [List.filter, hne]

/-- Filtering over `processed ++ [t]` for the key `t.model` appends `t`. -/
theorem filter_snoc_eq (processed : List GenTask) (t : GenTask) :
    (processed ++ [t]).filter (fun t' => t'.model = t.model)
      = processed.filter (fun t' => t'.model = t.model) ++ [t] := by
  rw [List.filter_append]
  simp [List.filter]

/-- One step of `calculateCost`'s `forEach` loop preserves the breakdown
invariant (distinct keys, total = sum of subtotals, per-entry props,
presence of an entry for every resolvable processed model). -/
theorem calculateCostStep_inv (models : List CatalogModel)
    (processed : List GenTask) (t : GenTask) (acc : ℚ × List (String × CostEntry))
    (h1 : (acc.2.map Prod.fst).Nodup)
    (h2 : acc.1 = (acc.2.map (fun kv => kv.2.totalCost)).sum)
    (h3 : ∀ kv ∈ acc.2, entryProps models processed kv)
    (h4 : ∀ t' ∈ processed, resolvedCost models t'.model ≠ none →
      bdLookup t'.model acc.2 ≠ none) :
    ((calculateCostStep models acc t).2.map Prod.fst).Nodup ∧
    (calculateCostStep models acc t).1
      = ((calculateCostStep models acc t).2.map (fun kv => kv.2.totalCost)).sum ∧
    (∀ kv ∈ (calculateCostStep models acc t).2,
      entryProps models (processed ++ [t]) kv) ∧
    (∀ t' ∈ processed ++ [t], resolvedCost models t'.model ≠ none →
      bdLookup t'.model (calculateCostStep models acc t).2 ≠ none) := by
  cases hres : resolvedCost models t.model with
  | none =>
    simp only [calculateCostStep, hres]
    refine ⟨h1, h2, ?_, ?_⟩
    · intro kv hkv
      obtain ⟨p1, p2, p3⟩ := h3 kv hkv
      have hne : t.model ≠ kv.1 := by
        intro hc
        rw [hc] at hres
        rw [hres] at p1
        cases p1
      exact ⟨p1, p2, by rw [filter_snoc_ne processed t kv.1 hne]; exact p3⟩
    · intro t' ht' hr
      rcases List.mem_append.mp ht' with hmem | hmem
      · exact h4 t' hmem hr
      · rw [List.mem_singleton.mp hmem] at hr
        exact absurd hres hr
  | some c =>
    cases hlk : bdLookup t.model acc.2 with
    | none =>
      have hnotmem : t.model ∉ acc.2.map Prod.fst := by
        intro hc
        exact (bdLookup_ne_none_iff t.model acc.2).mpr hc hlk
      simp only [calculateCostStep, hres, hlk]
      refine ⟨?_, ?_, ?_, ?_⟩
      · rw [List.map_append]
        simp only [List.map_cons, List.map_nil]
        rw [List.nodup_append]
        exact ⟨h1, List.nodup_singleton _, by simpa using hnotmem⟩
      · rw [List.map_append, List.sum_append]
        simp [h2]
      · intro kv hkv
        rcases List.mem_append.mp hkv with hmem | hmem
        · obtain ⟨p1, p2, p3⟩ := h3 kv hmem
          have hne : t.model ≠ kv.1 := by
            intro hc
            apply hnotmem
            rw [hc]
            exact List.mem_map_of_mem Prod.fst hmem
          exact ⟨p1, p2, by rw [filter_snoc_ne processed t kv.1 hne]; exact p3⟩
        · rw [List.mem_singleton.mp hmem]
          have hfilter : processed.filter (fun t' => t'.model = t.model) = [] := by
            rw [List.filter_eq_nil_iff]
            intro t' ht' hc
            have hr' : resolvedCost models t'.model ≠ none := by
              have hc' : t'.model = t.model := by simpa using hc
              rw [hc', hres]
              intro h
              cases h
            have hc' : t'.model = t.model := by simpa using hc
            apply h4 t' ht' hr'
            rw [hc']
            exact hlk
          refine ⟨hres, by simp, ?_⟩
          rw [filter_snoc_eq processed t, hfilter]
          simp
      · intro t' ht' hr
        rw [Ne, bdLookup_append]
        rcases List.mem_append.mp ht' with hmem | hmem
        · have hold := h4 t' hmem hr
          cases holdeq : bdLookup t'.model acc.2 with
          | none => exact absurd holdeq hold
          | some e' => simp
        · rw [List.mem_singleton.mp hmem]
          rw [hlk]
          simp [bdLookup]
    | some e =>
      obtain ⟨p1, p2, p3⟩ := h3 (t.model, e) (bdLookup_mem t.model e acc.2 hlk)
      have hce : c = e.costPerImage := by
        rw [hres] at p1
        exact Option.some.inj p1
      simp only [calculateCostStep, hres, hlk]
      have hlkne : bdLookup t.model acc.2 ≠ none := by
        rw [hlk]
        intro h
        cases h
      refine ⟨?_, ?_, ?_, ?_⟩
      · rw [bdUpdate_keys]
        exact h1
      · rw [bdUpdate_sum (fun v => v.totalCost) t.model _ e acc.2 hlk]
        simp only
        rw [h2]
        ring
      · intro kv hkv
        rcases bdUpdate_mem_nodup t.model _ acc.2 h1 hlkne kv hkv with heq | ⟨hmem, hne⟩
        · rw [heq]
          refine ⟨by rw [hres, hce], ?_, ?_⟩
          · simp only at p2 ⊢
            push_cast
            rw [p2, hce]
            ring
          · simp only
            rw [filter_snoc_eq processed t]
            simp only at p3
            rw [List.map_append, List.sum_append, ← p3]
            simp
        · obtain ⟨q1, q2, q3⟩ := h3 kv hmem
          have hne' : t.model ≠ kv.1 := fun hc => hne hc.symm
          exact ⟨q1, q2, by rw [filter_snoc_ne processed t kv.1 hne']; exact q3⟩
      · intro t' ht' hr
        rw [bdLookup_ne_none_iff, bdUpdate_keys]
        rcases List.mem_append.mp ht' with hmem | hmem
        · exact (bdLookup_ne_none_iff _ _).mp (h4 t' hmem hr)
        · rw [List.mem_singleton.mp hmem]
          exact (bdLookup_ne_none_iff _ _).mp hlkne

/-- The breakdown invariant holds after folding any suffix of the task
list, given it holds for the prefix already processed. -/
theorem calculateCost_fold_inv (models : List CatalogModel) :
    ∀ (todo processed : List GenTask) (acc : ℚ × List (String × CostEntry)),
      (acc.2.map Prod.fst).Nodup →
      acc.1 = (acc.2.map (fun kv => kv.2.totalCost)).sum →
      (∀ kv ∈ acc.2, entryProps models processed kv) →
      (∀ t' ∈ processed, resolvedCost models t'.model ≠ none →
        bdLookup t'.model acc.2 ≠ none) →
      ((todo.foldl (calculateCostStep models) acc).2.map Prod.fst).Nodup ∧
      (todo.foldl (calculateCostStep models) acc).1
        = ((todo.foldl (calculateCostStep models) acc).2.map
            (fun kv => kv.2.totalCost)).sum ∧
      (∀ kv ∈ (todo.foldl (calculateCostStep models) acc).2,
        entryProps models (processed ++ todo) kv) := by
  intro todo
  induction todo with
  | nil =>
    intro processed acc h1 h2 h3 _
    exact ⟨h1, h2, by simpa using h3⟩
  | cons t todo ih =>
    intro processed acc h1 h2 h3 h4
    obtain ⟨k1, k2, k3, k4⟩ := calculateCostStep_inv models processed t acc h1 h2 h3 h4
    have hmain := ih (processed ++ [t]) (calculateCostStep models acc t) k1 k2 k3 k4
    rw [List.foldl_cons]
    refine ⟨hmain.1, hmain.2.1, ?_⟩
    have hassoc : processed ++ [t] ++ todo = processed ++ t :: todo := by
      simp
    rw [← hassoc]
    exact hmain.2.2

/-- A resolved unit cost comes from some catalog entry. -/
theorem resolvedCost_mem (models : List CatalogModel) (k : String) (c : ℚ)
    (h : resolvedCost models k = some c) :
    ∃ m ∈ models, m.costPerImage = some c := by
  unfold resolvedCost at h
  split at h
  · cases h
  · rename_i m hf
    split at h
    · cases h
    · rename_i c' hc
      split at h
      · cases h
      · refine ⟨m, List.mem_of_find?_eq_some hf, ?_⟩
        rw [hc, Option.some.inj h]

/-- C1.  Failure isolation: for any concurrency bound ≥ 1, any task list and
any index `k` at which the provider call throws, `generateBatch` still
completes with one result per task; the result at `k` is a captured failure
object (`success: false` with the thrown reason, no exception crosses the
task boundary), and every other task's result is exactly the outcome of its
own provider call, unaffected by the failure at `k`. -/
theorem generateBatch_failure_isolation
    (provider : Nat → GenTask → Except String FalResult) (sched : Nat → List Nat)
    (b : Nat) (tasks : List GenTask) (k : Nat) (tk : GenTask) (msg : String)
    (hb : 1 ≤ b) (hk : tasks[k]? = some tk)
    (hfail : provider k tk = .error msg) :
    ∃ es, generateBatch provider sched b tasks
        = some (taskOutcomes provider 0 tasks, es) ∧
      (taskOutcomes provider 0 tasks).length = tasks.length ∧
      (taskOutcomes provider 0 tasks)[k]?
        = some { success := false, model := tk.model, prompt := tk.prompt,
                 images := [], error := some msg } ∧
      ∀ j t, tasks[j]? = some t →
        (taskOutcomes provider 0 tasks)[j]?
          = some (generateSingleImage (provider j) t) := by
  obtain ⟨es, heq⟩ := generateBatchFuel_results provider sched tasks.length b hb
    (tasks.length + 1) 0 tasks (by omega)
  refine ⟨es, heq, taskOutcomes_length _ _ _, ?_, ?_⟩
  · rw [taskOutcomes_getElem?, hk]
    simp only [Nat.zero_add, Option.map_some]
    simp [generateSingleImage, hfail]
  · intro j t hj
    rw [taskOutcomes_getElem?, hj]
    simp [Nat.zero_add]

/-- C2.  Order preservation: for any concurrency bound ≥ 1, `generateBatch`
returns a result list of the same length as the input, whose `j`-th entry is
the outcome of the `j`-th task; the result list is the same for every
completion schedule (latency within a window only reorders progress events,
never results). -/
theorem generateBatch_order_preservation
    (provider : Nat → GenTask → Except String FalResult) (sched : Nat → List Nat)
    (b : Nat) (tasks : List GenTask) (hb : 1 ≤ b) :
    ∃ es, generateBatch provider sched b tasks
        = some (taskOutcomes provider 0 tasks, es) ∧
      (taskOutcomes provider 0 tasks).length = tasks.length ∧
      (∀ j t, tasks[j]? = some t →
        (taskOutcomes provider 0 tasks)[j]?
          = some (generateSingleImage (provider j) t)) ∧
      ∀ sched', ∃ es', generateBatch provider sched' b tasks
        = some (taskOutcomes provider 0 tasks, es') := by
  obtain ⟨es, heq⟩ := generateBatchFuel_results provider sched tasks.length b hb
    (tasks.length + 1) 0 tasks (by omega)
  refine ⟨es, heq, taskOutcomes_length _ _ _, ?_, ?_⟩
  · intro j t hj
    rw [taskOutcomes_getElem?, hj]
    simp [Nat.zero_add]
  · intro sched'
    exact generateBatchFuel_results provider sched' tasks.length b hb
      (tasks.length + 1) 0 tasks (by omega)

/-- C3.  Bounded concurrency by sequential windows: for any bound ≥ 1 the
run of `generateBatch` is exactly the sequential execution (`runWindows`) of
the consecutive windows `chunks b tasks`; the windows concatenate back to
the input list, and every window is nonempty with at most `b` tasks — so
never more than `b` tasks are dispatched together, and a window finishes
before the next one starts. -/
theorem generateBatch_bounded_windows
    (provider : Nat → GenTask → Except String FalResult) (sched : Nat → List Nat)
    (b : Nat) (tasks : List GenTask) (hb : 1 ≤ b) :
    generateBatch provider sched b tasks
      = some (runWindows provider sched tasks.length 0 (chunks b tasks)) ∧
    (chunks b tasks).flatten = tasks ∧
    ∀ w ∈ chunks b tasks, w.length ≤ b ∧ w ≠ [] :=
  ⟨generateBatchFuel_windows provider sched tasks.length b hb
      (tasks.length + 1) 0 tasks (by omega),
    chunks_flatten b tasks, chunks_bounded b hb tasks⟩

/-- C5 (amended).  `generateBatch` performs no validation of the concurrency
bound: with `batchSize = 0` and a nonempty task list, the windowing loop
takes an empty window and never advances, so the run dispatches nothing,
raises no configuration error, and does not terminate for any amount of
fuel. -/
theorem generateBatch_zero_batch_diverges
    (provider : Nat → GenTask → Except String FalResult) (sched : Nat → List Nat)
    (total : Nat) :
    ∀ (fuel i : Nat) (t : GenTask) (ts : List GenTask),
      generateBatchFuel provider sched total 0 fuel i (t :: ts) = none := by
  intro fuel
  induction fuel with
  | zero => intro i t ts; rfl
  | succ fuel ih =>
    intro i t ts
    simp [generateBatchFuel, ih]

/-- Witness for C1 on a concrete batch: two tasks, bound 1, provider throws
at index 0. -/
theorem generateBatch_failure_isolation_witness :
    ∃ es, generateBatch failAtZeroProvider inOrderSched 1 [sampleTaskA, sampleTaskB]
        = some (taskOutcomes failAtZeroProvider 0 [sampleTaskA, sampleTaskB], es) ∧
      (taskOutcomes failAtZeroProvider 0 [sampleTaskA, sampleTaskB]).length
        = [sampleTaskA, sampleTaskB].length ∧
      (taskOutcomes failAtZeroProvider 0 [sampleTaskA, sampleTaskB])[0]?
        = some { success := false, model := sampleTaskA.model,
                 prompt := sampleTaskA.prompt, images := [],
                 error := some "Rate limit exceeded" } ∧
      ∀ j t, [sampleTaskA, sampleTaskB][j]? = some t →
        (taskOutcomes failAtZeroProvider 0 [sampleTaskA, sampleTaskB])[j]?
          = some (generateSingleImage (failAtZeroProvider j) t) :=
  generateBatch_failure_isolation failAtZeroProvider inOrderSched 1
    [sampleTaskA, sampleTaskB] 0 sampleTaskA "Rate limit exceeded"
    (by decide) rfl rfl

/-- Witness for C2 on a concrete batch with bound 2 and an out-of-order
completion schedule. -/
theorem generateBatch_order_preservation_witness :
    ∃ es, generateBatch failAtZeroProvider reversedSched 2 [sampleTaskA, sampleTaskB]
        = some (taskOutcomes failAtZeroProvider 0 [sampleTaskA, sampleTaskB], es) ∧
      (taskOutcomes failAtZeroProvider 0 [sampleTaskA, sampleTaskB]).length
        = [sampleTaskA, sampleTaskB].length ∧
      (∀ j t, [sampleTaskA, sampleTaskB][j]? = some t →
        (taskOutcomes failAtZeroProvider 0 [sampleTaskA, sampleTaskB])[j]?
          = some (generateSingleImage (failAtZeroProvider j) t)) ∧
      ∀ sched', ∃ es', generateBatch failAtZeroProvider sched' 2 [sampleTaskA, sampleTaskB]
        = some (taskOutcomes failAtZeroProvider 0 [sampleTaskA, sampleTaskB], es') :=
  generateBatch_order_preservation failAtZeroProvider reversedSched 2
    [sampleTaskA, sampleTaskB] (by decide)

/-- Witness for C3 on a concrete batch: five tasks under bound 2. -/
theorem generateBatch_bounded_windows_witness :
    generateBatch failAtZeroProvider inOrderSched 2
        [sampleTaskA, sampleTaskB, sampleTaskA, sampleTaskB, sampleTaskA]
      = some (runWindows failAtZeroProvider inOrderSched
          [sampleTaskA, sampleTaskB, sampleTaskA, sampleTaskB, sampleTaskA].length 0
          (chunks 2 [sampleTaskA, sampleTaskB, sampleTaskA, sampleTaskB, sampleTaskA])) ∧
    (chunks 2 [sampleTaskA, sampleTaskB, sampleTaskA, sampleTaskB, sampleTaskA]).flatten
      = [sampleTaskA, sampleTaskB, sampleTaskA, sampleTaskB, sampleTaskA] ∧
    ∀ w ∈ chunks 2 [sampleTaskA, sampleTaskB, sampleTaskA, sampleTaskB, sampleTaskA],
      w.length ≤ 2 ∧ w ≠ [] :=
  generateBatch_bounded_windows failAtZeroProvider inOrderSched 2
    [sampleTaskA, sampleTaskB, sampleTaskA, sampleTaskB, sampleTaskA] (by decide)

/-- C4 (amended).  Progress completeness as the code implements it: under a
valid completion schedule and bound ≥ 1, `onProgress` fires exactly once per
task (N invocations for N tasks), the `completed` values passed are exactly
the positions `1 … N` up to reordering within a window (the value is
computed from the task's position, not from a completion counter), and with
`batchSize = 1` they are strictly increasing from 1 to N. -/
theorem generateBatch_progress_once_per_task
    (provider : Nat → GenTask → Except String FalResult) (sched : Nat → List Nat)
    (b : Nat) (tasks : List GenTask)
    (hb : 1 ≤ b) (hvs : ValidSched b tasks.length sched) :
    ∃ rs es, generateBatch provider sched b tasks = some (rs, es) ∧
      es.length = tasks.length ∧
      List.Perm (es.map fun e => e.completed) (List.range' 1 tasks.length) ∧
      (b = 1 → es.map (fun e => e.completed) = List.range' 1 tasks.length) := by
  have hs : ∀ j, List.Perm (sched j) (List.range (min b (0 + tasks.length - j))) := by
    intro j
    have h0 := hvs j
    simpa using h0
  obtain ⟨rs, es, heq, hperm, hone⟩ := generateBatchFuel_events provider sched
    tasks.length b hb (tasks.length + 1) 0 tasks (by omega) hs
  simp only [Nat.zero_add] at hperm hone
  refine ⟨rs, es, heq, ?_, hperm, hone⟩
  have hlen := hperm.length_eq
  simpa using hlen

/-- Witness for the amended C4: two tasks, bound 1, in-order schedule. -/
theorem generateBatch_progress_once_per_task_witness :
    ∃ rs es, generateBatch failAtZeroProvider inOrderSched 1 [sampleTaskA, sampleTaskB]
        = some (rs, es) ∧
      es.length = [sampleTaskA, sampleTaskB].length ∧
      List.Perm (es.map fun e => e.completed)
        (List.range' 1 [sampleTaskA, sampleTaskB].length) ∧
      (1 = 1 → es.map (fun e => e.completed)
        = List.range' 1 [sampleTaskA, sampleTaskB].length) :=
  generateBatch_progress_once_per_task failAtZeroProvider inOrderSched 1
    [sampleTaskA, sampleTaskB] (by decide) (fun i => List.Perm.refl _)

/-- Counterexample to C4 as stated: with bound 2, when the second task of
the window completes first (a valid completion order for the window), the
`completed` values passed to `onProgress` are `[2, 1]` — not strictly
increasing from 1 to N. -/
theorem generateBatch_progress_counterexample :
    List.Perm (reversedSched 0)
      (List.range (min 2 ([sampleTaskA, sampleTaskB].length - 0))) ∧
    (generateBatch failAtZeroProvider reversedSched 2 [sampleTaskA, sampleTaskB]).map
        (fun p => p.2.map fun e => e.completed) = some [2, 1] ∧
    [2, 1] ≠ List.range' 1 2 ∧
    ¬ List.Sorted (· < ·) [2, 1] := by
  refine ⟨by decide, rfl, by decide, by decide⟩

/-- Counterexample to C5 as stated: with `batchSize = 0` and one task, no
configuration error is surfaced — the run simply never completes (with any
fuel; here shown at the standard fuel, while the same call with
`batchSize = 1` completes). -/
theorem generateBatch_zero_batch_counterexample :
    generateBatch failAtZeroProvider inOrderSched 0 [sampleTaskA] = none ∧
    (generateBatch failAtZeroProvider inOrderSched 1 [sampleTaskA]).isSome = true :=
  ⟨rfl, rfl⟩

/-- C6.  The spending gate: a confirmed call always proceeds; an unconfirmed
call raises the `SPENDING_CONFIRMATION_REQUIRED` signal (carrying the
estimate and the limit) exactly when the estimate strictly exceeds
`SPENDING_LIMIT`, and proceeds otherwise. -/
theorem checkSpending_gate (e : ℚ) :
    checkSpending e true = SpendDecision.allow ∧
    (checkSpending e false = SpendDecision.requireConfirmation e SPENDING_LIMIT
      ↔ SPENDING_LIMIT < e) ∧
    (checkSpending e false = SpendDecision.allow ↔ ¬ SPENDING_LIMIT < e) := by
  unfold checkSpending requiresSpendingConfirmation
  by_cases h : SPENDING_LIMIT < e
  · simp [h]
  · simp [h]

/-- Witness for C6 at the spec's Scenario C estimate of $6. -/
theorem checkSpending_gate_witness :
    checkSpending 6 true = SpendDecision.allow ∧
    (checkSpending 6 false = SpendDecision.requireConfirmation 6 SPENDING_LIMIT
      ↔ SPENDING_LIMIT < 6) ∧
    (checkSpending 6 false = SpendDecision.allow ↔ ¬ SPENDING_LIMIT < 6) :=
  checkSpending_gate 6

/-- Counterexample to C7 as stated: the core `calculateCost` (used by the
`calculate_cost` tool) skips a task whose model is not in the catalog — the
task contributes nothing (zero) to the total and gets no breakdown entry,
instead of the $0.05-per-image fallback. -/
theorem calculateCost_unresolved_counterexample :
    (calculateCost [{ model := "unlisted/model", prompt := "p" }] []).totalCost = 0 ∧
    (calculateCost [{ model := "unlisted/model", prompt := "p" }] []).breakdown = [] ∧
    (5 / 100 : ℚ) * 1 ≠ 0 := by
  refine ⟨rfl, rfl, by norm_num⟩

/-- C7 (amended).  The conservative fallback exists only in the MCP
spending-gate estimator: `calculateGenerationCost` charges $0.05 per image
whenever the task's model is absent from the catalog, or present without a
truthy `costPerImage` — a nonzero amount for any positive image count. -/
theorem calculateGenerationCost_conservative_fallback
    (models : List CatalogModel) (mid : String) (n : Nat)
    (h : models.find? (fun m => m.id = mid) = none ∨
      ∃ m, models.find? (fun m => m.id = mid) = some m ∧
        (m.costPerImage = none ∨ m.costPerImage = some 0)) :
    calculateGenerationCost models mid n = 5 / 100 * n ∧
    (1 ≤ n → 0 < calculateGenerationCost models mid n) := by
  have heq : calculateGenerationCost models mid n = 5 / 100 * n := by
    unfold calculateGenerationCost
    rcases h with hnone | ⟨m, hfind, hcost⟩
    · rw [hnone]
    · rw [hfind]
      rcases hcost with hc | hc
      · simp [hc]
      · simp [hc]
  refine ⟨heq, ?_⟩
  intro hn
  rw [heq]
  have hq : (0 : ℚ) < (n : ℚ) := by
    exact_mod_cast Nat.lt_of_lt_of_le Nat.zero_lt_one hn
  have h5 : (0 : ℚ) < 5 / 100 := by norm_num
  exact mul_pos h5 hq

/-- Witness for the amended C7: empty catalog, one image. -/
theorem calculateGenerationCost_conservative_fallback_witness :
    calculateGenerationCost [] "unlisted/model" 1 = 5 / 100 * 1 ∧
    0 < calculateGenerationCost [] "unlisted/model" 1 := by
  have h := calculateGenerationCost_conservative_fallback [] "unlisted/model" 1
    (Or.inl rfl)
  exact ⟨h.1, h.2 (by norm_num)⟩

/-- Counterexample to C8 as stated: a response whose `images` array is
present but yields no URL, while `data.images` holds a non-empty URL.  The
code commits to the first structurally present shape and extracts nothing
(so the task fails with "No images generated"), where the spec's
first-shape-that-yields rule would return `["u"]`. -/
theorem extractImageUrls_priority_counterexample :
    extractImageUrls shadowedResponse = [] ∧
    extractImageUrlsSpecOrder shadowedResponse = ["u"] ∧
    generateSingleImage shadowedProvider sampleTaskA
      = { success := false, model := sampleTaskA.model, prompt := sampleTaskA.prompt,
          images := [], error := some "No images generated" } :=
  ⟨rfl, rfl, rfl⟩

/-- C8 (amended).  The client dispatches on the first structurally present
response shape; whenever extraction yields no URL the task's result is the
failure `"No images generated"`, a thrown provider error becomes a failure
with its message, and a success result always carries a nonempty URL
list. -/
theorem generateSingleImage_failure_normalization
    (provider : GenTask → Except String FalResult) (t : GenTask) :
    ((generateSingleImage provider t).success = true →
      (generateSingleImage provider t).images ≠ []) ∧
    (∀ r, provider t = .ok r → extractImageUrls r = [] →
      generateSingleImage provider t
        = { success := false, model := t.model, prompt := t.prompt,
            images := [], error := some "No images generated" }) ∧
    (∀ msg, provider t = .error msg →
      generateSingleImage provider t
        = { success := false, model := t.model, prompt := t.prompt,
            images := [], error := some msg }) := by
  cases hp : provider t with
  | error msg0 =>
    have hg : generateSingleImage provider t
        = { success := false, model := t.model, prompt := t.prompt,
            images := [], error := some msg0 } := by
      unfold generateSingleImage
      rw [hp]
    refine ⟨?_, ?_, ?_⟩
    · rw [hg]
      intro hcontra
      simp at hcontra
    · intro r hr
      cases hr
    · intro msg hmsg
      rw [hg, Except.error.inj hmsg]
  | ok r0 =>
    by_cases he : (extractImageUrls r0).isEmpty
    · have hg : generateSingleImage provider t
          = { success := false, model := t.model, prompt := t.prompt,
              images := [], error := some "No images generated" } := by
        unfold generateSingleImage
        rw [hp]
        simp [he]
      refine ⟨?_, ?_, ?_⟩
      · rw [hg]
        intro hcontra
        simp at hcontra
      · intro r hr _
        exact hg
      · intro msg hmsg
        cases hmsg
    · have hg : generateSingleImage provider t
          = { success := true, model := t.model, prompt := t.prompt,
              images := extractImageUrls r0, error := none } := by
        unfold generateSingleImage
        rw [hp]
        simp [he]
      refine ⟨?_, ?_, ?_⟩
      · intro _
        rw [hg]
        simp only
        intro hnil
        rw [hnil] at he
        exact he rfl
      · intro r hr hempty
        rw [← Except.ok.inj hr] at hempty
        rw [hempty] at he
        exact absurd rfl he
      · intro msg hmsg
        cases hmsg

/-- Witness for the amended C8: the provider answers with the shadowed
response, and the client reports the failure `"No images generated"`. -/
theorem generateSingleImage_failure_normalization_witness :
    generateSingleImage shadowedProvider sampleTaskB
      = { success := false, model := sampleTaskB.model, prompt := sampleTaskB.prompt,
          images := [], error := some "No images generated" } :=
  (generateSingleImage_failure_normalization shadowedProvider sampleTaskB).2.1
    shadowedResponse rfl rfl

/-- Counterexample to C9 as stated: a descriptor with every required field
present and `costPerImage = 0` (non-negative, as the spec's invariant
allows) is rejected — the falsy required-field check reports the zero cost
as a missing field. -/
theorem validateModelConfig_zero_cost_counterexample :
    (validateModelConfig zeroCostConfig).valid = false ∧
    (validateModelConfig zeroCostConfig).errors
      = ["Missing required field: costPerImage"] :=
  ⟨rfl, rfl⟩

/-- C9 (amended).  `validateModelConfig` returns `valid = true` with no
errors for a descriptor whose `id`, `name` and `type` are present and
nonempty, whose `costPerImage` is strictly positive (zero, although
non-negative, is rejected by the falsy required-field check), and whose
numeric parameters with both bounds satisfy `min < max`. -/
theorem validateModelConfig_valid_of_wellformed
    (m : ModelConfig)
    (hid : strTruthy m.id = true) (hname : strTruthy m.name = true)
    (htype : strTruthy m.type = true)
    (hcost : ∃ c, m.costPerImage = some c ∧ 0 < c)
    (hparams : ∀ kv ∈ m.parameters.getD [], ∀ mn mx,
      kv.2.type = some "number" → kv.2.min = some mn → kv.2.max = some mx →
        mn < mx) :
    (validateModelConfig m).valid = true ∧ (validateModelConfig m).errors = [] := by
  obtain ⟨c, hc, hcpos⟩ := hcost
  have hnum : numTruthy m.costPerImage = true := by
    rw [hc]
    simp [numTruthy]
    exact ne_of_gt hcpos
  have hmf : missingFieldErrors m = [] := by
    unfold missingFieldErrors
    rw [hid, hname, htype, hnum]
    simp
  have hcerr : (match m.costPerImage with
      | some c => if c ≠ 0 ∧ c < 0 then ["costPerImage cannot be negative"] else []
      | none => ([] : List String)) = [] := by
    rw [hc]
    simp only
    rw [if_neg]
    rintro ⟨_, hlt⟩
    exact absurd hlt (not_lt.mpr (le_of_lt hcpos))
  have hperr : (m.parameters.getD []).flatMap
      (fun kv => (paramChecks kv.1 kv.2).1) = [] := by
    rw [List.flatMap_eq_nil_iff]
    intro kv hkv
    unfold paramChecks
    simp only
    split
    · rename_i mn mx h1 h2 h3
      rw [if_neg]
      rw [not_le]
      exact hparams kv hkv mn mx h1 h2 h3
    · rfl
  have herr : missingFieldErrors m ++ (match m.costPerImage with
      | some c => if c ≠ 0 ∧ c < 0 then ["costPerImage cannot be negative"] else []
      | none => ([] : List String)) ++ (m.parameters.getD []).flatMap
      (fun kv => (paramChecks kv.1 kv.2).1) = [] := by
    rw [hmf, hcerr, hperr]
    rfl
  constructor
  · show (validateModelConfig m).valid = true
    unfold validateModelConfig
    simp only [herr]
    rfl
  · show (validateModelConfig m).errors = []
    unfold validateModelConfig
    simp only [herr]

/-- Witness for the amended C9: the well-formed fixture descriptor
validates cleanly. -/
theorem validateModelConfig_valid_of_wellformed_witness :
    (validateModelConfig wellFormedConfig).valid = true ∧
    (validateModelConfig wellFormedConfig).errors = [] :=
  validateModelConfig_valid_of_wellformed wellFormedConfig rfl rfl rfl
    ⟨3 / 100, rfl, by norm_num⟩
    (by
      intro kv hkv mn mx h1 h2 h3
      simp only [wellFormedConfig, Option.getD] at hkv
      rw [List.mem_singleton] at hkv
      subst hkv
      injection h2 with hmn
      injection h3 with hmx
      subst hmn
      subst hmx
      norm_num)

/-- C10.  Internal consistency of `calculateCost`: the reported total equals
the sum of the per-model subtotals; each breakdown entry's subtotal is its
unit cost times its image count, its unit cost is the resolved catalog cost
of its model id, and its image count is the sum of the (defaulted) image
counts of the tasks for that model; and when every catalog `costPerImage`
is non-negative, the total and every entry are non-negative. -/
theorem calculateCost_breakdown_consistency
    (tasks : List GenTask) (models : List CatalogModel) :
    (calculateCost tasks models).totalCost
      = (((calculateCost tasks models).breakdown).map fun kv => kv.2.totalCost).sum ∧
    (∀ kv ∈ (calculateCost tasks models).breakdown,
      kv.2.totalCost = kv.2.costPerImage * (kv.2.imageCount : ℚ) ∧
      resolvedCost models kv.1 = some kv.2.costPerImage ∧
      kv.2.imageCount = ((tasks.filter fun t => t.model = kv.1).map taskImages).sum) ∧
    ((∀ m ∈ models, ∀ c, m.costPerImage = some c → 0 ≤ c) →
      0 ≤ (calculateCost tasks models).totalCost ∧
      ∀ kv ∈ (calculateCost tasks models).breakdown,
        0 ≤ kv.2.costPerImage ∧ 0 ≤ kv.2.totalCost) := by
  obtain ⟨h1, h2, h3⟩ := calculateCost_fold_inv models tasks [] (0, [])
    (by simp) (by simp) (by intro kv hkv; cases hkv) (by intro t ht; cases ht)
  have hbd : (calculateCost tasks models).breakdown
      = (tasks.foldl (calculateCostStep models) (0, [])).2 := rfl
  have htc : (calculateCost tasks models).totalCost
      = (tasks.foldl (calculateCostStep models) (0, [])).1 := rfl
  refine ⟨?_, ?_, ?_⟩
  · rw [htc, hbd]
    exact h2
  · intro kv hkv
    rw [hbd] at hkv
    obtain ⟨p1, p2, p3⟩ := h3 kv hkv
    exact ⟨p2, p1, by simpa using p3⟩
  · intro hnn
    have hentry : ∀ kv ∈ (tasks.foldl (calculateCostStep models) (0, [])).2,
        0 ≤ kv.2.costPerImage ∧ 0 ≤ kv.2.totalCost := by
      intro kv hkv
      obtain ⟨p1, p2, p3⟩ := h3 kv hkv
      obtain ⟨mm, hmm, hmc⟩ := resolvedCost_mem models kv.1 kv.2.costPerImage p1
      have hcp : 0 ≤ kv.2.costPerImage := hnn mm hmm _ hmc
      refine ⟨hcp, ?_⟩
      rw [p2]
      exact mul_nonneg hcp (by positivity)
    refine ⟨?_, ?_⟩
    · rw [htc, h2]
      apply List.sum_nonneg
      intro x hx
      obtain ⟨kv, hkv, hfx⟩ := List.mem_map.mp hx
      rw [← hfx]
      exact (hentry kv hkv).2
    · intro kv hkv
      rw [hbd] at hkv
      exact hentry kv hkv

/-- Witness for C10 on a concrete catalog and two tasks sharing a model. -/
theorem calculateCost_breakdown_consistency_witness :
    (calculateCost
        [{ model := "fal-ai/flux-pro", prompt := "p", imageCount := some 2 },
         { model := "fal-ai/flux-pro", prompt := "q" }]
        [{ id := "fal-ai/flux-pro", name := "Flux Pro",
           costPerImage := some (1 / 20) }]).totalCost
      = (((calculateCost
          [{ model := "fal-ai/flux-pro", prompt := "p", imageCount := some 2 },
           { model := "fal-ai/flux-pro", prompt := "q" }]
          [{ id := "fal-ai/flux-pro", name := "Flux Pro",
             costPerImage := some (1 / 20) }]).breakdown).map
          fun kv => kv.2.totalCost).sum ∧
    0 ≤ (calculateCost
        [{ model := "fal-ai/flux-pro", prompt := "p", imageCount := some 2 },
         { model := "fal-ai/flux-pro", prompt := "q" }]
        [{ id := "fal-ai/flux-pro", name := "Flux Pro",
           costPerImage := some (1 / 20) }]).totalCost := by
  have h := calculateCost_breakdown_consistency
    [{ model := "fal-ai/flux-pro", prompt := "p", imageCount := some 2 },
     { model := "fal-ai/flux-pro", prompt := "q" }]
    [{ id := "fal-ai/flux-pro", name := "Flux Pro", costPerImage := some (1 / 20) }]
  refine ⟨h.1, ?_⟩
  refine (h.2.2 ?_).1
  intro m hm c hc
  rw [List.mem_singleton] at hm
  subst hm
  injection hc with hceq
  rw [← hceq]
  norm_num
